import Mathlib

/-!
Shallow embedding of the inode layer of a block-device filesystem
(src/filesys/inode.c): on-disk inode records with 124 direct sector
pointers and a two-level indirect index, the allocation planner run at
creation time, byte-offset-to-sector translation, the open-inode
registry, chunked read/write, and the deallocation walk run at the
last close of a removed inode.

Loops of the C source are translated as counted or fuelled structural
recursions so that every definition reduces in the kernel; machine
integers are modelled as Nat (off_t values relevant to the claims are
nonnegative) except reference/deny counters, which are Int as in C.
-/

set_option maxRecDepth 100000

namespace Inode

/-- BLOCK_SECTOR_SIZE of the block device (512 bytes). -/
def BLOCK_SECTOR_SIZE : Nat := 512

/-- DIRECT_BLOCK: number of direct sector slots in an inode record. -/
def DIRECT_BLOCK : Nat := 124

/-- MAX_BLOCK_NUMBER: addressing ceiling, 1 + 124 + 2^7 + 2^14. -/
def MAX_BLOCK_NUMBER : Nat := 16637

/-- INODE_MAGIC sentinel written into every created inode record. -/
def INODE_MAGIC : Nat := 0x494e4f44

/-- The value (block_sector_t) -1 returned by byte_to_sector when the
offset is past the inode's length. -/
def NOT_FOUND : Nat := 4294967295

/-- On-disk inode record (struct inode_disk): 124 direct sector slots
(field sectors, meaningful at indices below DIRECT_BLOCK), the
first-level index sector number (field ib), a directory tag, the file
length in bytes and the magic sentinel. -/
structure inode_disk where
  sectors : Nat → Nat
  ib : Nat
  is_directory : Bool
  length : Nat
  magic : Nat

/-- The all-zero inode record produced by calloc. -/
def zeroNode : inode_disk := ⟨fun _ => 0, 0, false, 0, 0⟩

/-- Contents of one disk sector, as this module interprets them:
raw data bytes, an indirect block of 128 sector slots (struct
indirect_block), an inode record, or not yet written. -/
inductive SectorData where
  | raw : (Nat → Nat) → SectorData
  | ib : (Nat → Nat) → SectorData
  | node : inode_disk → SectorData
  | uninit : SectorData

/-- The block device: sector number to sector contents. -/
def Disk := Nat → SectorData

/-- block_read of a sector interpreted as a struct indirect_block. -/
def readIB (d : Disk) (s : Nat) : Nat → Nat :=
  match d s with
  | SectorData.ib f => f
  | _ => fun _ => 0

/-- block_read of a sector interpreted as raw data bytes. -/
def readRaw (d : Disk) (s : Nat) : Nat → Nat :=
  match d s with
  | SectorData.raw f => f
  | _ => fun _ => 0

/-- block_read of a sector interpreted as a struct inode_disk. -/
def readNode (d : Disk) (s : Nat) : inode_disk :=
  match d s with
  | SectorData.node dn => dn
  | _ => zeroNode

/-- In-memory inode record (struct inode): sector number, opener
count, removed flag, deny-write counter, cached on-disk record. -/
structure inode where
  sector : Nat
  open_cnt : Int
  removed : Bool
  deny_write_cnt : Int
  data : inode_disk

/-- bytes_to_sectors: DIV_ROUND_UP (size, BLOCK_SECTOR_SIZE). -/
def bytes_to_sectors (size : Nat) : Nat :=
  (size + BLOCK_SECTOR_SIZE - 1) / BLOCK_SECTOR_SIZE

/-- compute_total_sectors: sectors needed to hold SECTORS data
sectors, counting index sectors, excluding the inode's own sector.
Note the C integer division (sectors - DIRECT_BLOCK) / 128 rounds
down. -/
def compute_total_sectors (sectors : Nat) : Nat :=
  if sectors ≤ DIRECT_BLOCK then
    sectors
  else
    let second_level := (sectors - DIRECT_BLOCK) / 128
    let indirect_sectors := sectors - DIRECT_BLOCK
    indirect_sectors + second_level + 1 + DIRECT_BLOCK

/-- byte_to_sector: the device sector holding byte offset pos of the
inode, NOT_FOUND when pos is at or past the length; offsets in the
direct range resolve through the direct slots and later offsets
through the first- and second-level index sectors. -/
def byte_to_sector (ino : inode) (d : Disk) (pos : Nat) : Nat :=
  if pos < ino.data.length then
    let index := pos / BLOCK_SECTOR_SIZE
    if index < DIRECT_BLOCK then
      ino.data.sectors index
    else
      let first_ib_index := (index - DIRECT_BLOCK) / 128
      let second_ib_index := (index - DIRECT_BLOCK) % 128
      let first_ib := readIB d ino.data.ib
      let second_ib := readIB d (first_ib first_ib_index)
      second_ib second_ib_index
  else NOT_FOUND

/-- Free-space allocator state: the sectors it will hand out next in
order, its free-sector count (free_map_unused), and the sectors
released to it so far in order. -/
structure FMap where
  supply : List Nat
  freeCnt : Nat
  released : List Nat

/-- free_map_allocate (1, &pos): hand out the next free sector. -/
def free_map_allocate (fm : FMap) : Nat × FMap :=
  match fm.supply with
  | [] => (0, fm)
  | s :: rest => (s, ⟨rest, fm.freeCnt - 1, fm.released⟩)

/-- free_map_unused: the allocator's free-sector count. -/
def free_map_unused (fm : FMap) : Nat := fm.freeCnt

/-- free_map_release (s, 1): return sector s to the allocator. -/
def free_map_release (fm : FMap) (s : Nat) : FMap :=
  ⟨fm.supply, fm.freeCnt + 1, fm.released ++ [s]⟩

/-- The direct-slot allocation loop of write_sectors_to_disk:
for (i = 0; i < total_sectors and i < DIRECT_BLOCK; i++) allocate a
sector into slot i; translated as a loop counted by cnt starting at
slot i. -/
def allocDirectAux : Nat → Nat → inode_disk → FMap → inode_disk × FMap
  | _, 0, dn, fm => (dn, fm)
  | i, cnt + 1, dn, fm =>
    let a := free_map_allocate fm
    allocDirectAux (i + 1) cnt
      ⟨Function.update dn.sectors i a.1, dn.ib, dn.is_directory, dn.length, dn.magic⟩ a.2

/-- The inner for-loop of write_sectors_to_disk filling one
second-level indirect block: for (k = 0; k < 128 and i + k <
total_sectors; k++) allocate a data sector into slot k; counted
translation starting at slot k. -/
def allocSecondAux : Nat → Nat → (Nat → Nat) → FMap → (Nat → Nat) × FMap
  | _, 0, sl, fm => (sl, fm)
  | k, cnt + 1, sl, fm =>
    let a := free_map_allocate fm
    allocSecondAux (k + 1) cnt (Function.update sl k a.1) a.2

/-- The outer while-loop of write_sectors_to_disk: while i <
total_sectors, allocate a second-level indirect block, fill it with
up to 128 data sectors, write it to disk, and move to the next
first-level slot.  Fuelled; each iteration raises i by at least one,
so fuel = total_sectors suffices at every call site. -/
def allocIBLoop : Nat → Nat → Nat → Nat → (Nat → Nat) → FMap → Disk →
    (Nat → Nat) × FMap × Disk
  | 0, _, _, _, fl, fm, d => (fl, fm, d)
  | fuel + 1, total, i, ib_index, fl, fm, d =>
    if i < total then
      let a := free_map_allocate fm
      let fl' := Function.update fl ib_index a.1
      let i1 := i + 1
      let kmax := min 128 (total - i1)
      let g := allocSecondAux 0 kmax (fun _ => 0) a.2
      let d' := Function.update d a.1 (SectorData.ib g.1)
      allocIBLoop fuel total (i1 + kmax) (ib_index + 1) fl' g.2 d'
    else (fl, fm, d)

/-- write_sectors_to_disk: allocate the direct data sectors, then, if
more are needed, the first-level index sector and the groups of
second-level index sector plus data sectors, writing each index
sector to disk; returns the filled-in inode record, the allocator
state and the disk. -/
def write_sectors_to_disk (total : Nat) (dn : inode_disk) (fm : FMap) (d : Disk) :
    inode_disk × FMap × Disk :=
  let r1 := allocDirectAux 0 (min total DIRECT_BLOCK) dn fm
  let i := min total DIRECT_BLOCK
  if i < total then
    let a := free_map_allocate r1.2
    let dn2 : inode_disk := ⟨r1.1.sectors, a.1, r1.1.is_directory, r1.1.length, r1.1.magic⟩
    let r3 := allocIBLoop total total (i + 1) 0 (fun _ => 0) a.2 d
    let d2 := Function.update r3.2.2 a.1 (SectorData.ib r3.1)
    (dn2, r3.2.1, d2)
  else (r1.1, r1.2, d)

/-- inode_create: plan the sector tree for a length-byte file, fail
when the computed total exceeds MAX_BLOCK_NUMBER or the allocator has
fewer than total + 1 free sectors, otherwise build the tree and write
the inode record to the given sector. -/
def inode_create (sector : Nat) (length : Nat) (fm : FMap) (d : Disk) :
    Bool × FMap × Disk :=
  let sectors := bytes_to_sectors length
  let total := compute_total_sectors sectors
  if total > MAX_BLOCK_NUMBER then (false, fm, d)
  else
    let dn1 : inode_disk := ⟨zeroNode.sectors, zeroNode.ib, zeroNode.is_directory,
      length, INODE_MAGIC⟩
    if free_map_unused fm ≥ total + 1 then
      let r := write_sectors_to_disk total dn1 fm d
      (true, r.2.1, Function.update r.2.2 sector (SectorData.node r.1))
    else (false, fm, d)

/-- The chunked read loop of inode_read_at.  Fuelled with one unit
per iteration; each iteration transfers at least one byte, so fuel =
size suffices.  Returns the number of bytes read and the bytes copied
into the caller's buffer, in order. -/
def readLoop : Nat → inode → Disk → Nat → Nat → Nat × List Nat
  | 0, _, _, _, _ => (0, [])
  | fuel + 1, ino, d, size, offset =>
    if size = 0 then (0, [])
    else
      let sector_idx := byte_to_sector ino d offset
      let sector_ofs := offset % BLOCK_SECTOR_SIZE
      let inode_left := ino.data.length - offset
      let sector_left := BLOCK_SECTOR_SIZE - sector_ofs
      let min_left := min inode_left sector_left
      let chunk_size := min size min_left
      if chunk_size = 0 then (0, [])
      else
        let bytes :=
          if sector_ofs = 0 ∧ chunk_size = BLOCK_SECTOR_SIZE then
            (List.range BLOCK_SECTOR_SIZE).map (readRaw d sector_idx)
          else
            (List.range chunk_size).map fun j => readRaw d sector_idx (sector_ofs + j)
        let rest := readLoop fuel ino d (size - chunk_size) (offset + chunk_size)
        (chunk_size + rest.1, bytes ++ rest.2)

/-- inode_read_at: read size bytes starting at offset, returning the
byte count actually read and the bytes delivered to the caller. -/
def inode_read_at (ino : inode) (d : Disk) (size offset : Nat) : Nat × List Nat :=
  readLoop size ino d size offset

/-- The chunked write loop of inode_write_at over the buffer buf,
whose byte at position bw + j is buf (bw + j).  A full aligned chunk
overwrites the whole sector from the buffer; a partial chunk stages
the sector in the bounce buffer (read first when the sector keeps
data outside the chunk, zeroed otherwise) and writes it back.
Fuelled with one unit per iteration as in readLoop. -/
def writeLoop : Nat → inode → Disk → Nat → Nat → (Nat → Nat) → Nat → Nat × Disk
  | 0, _, d, _, _, _, _ => (0, d)
  | fuel + 1, ino, d, size, offset, buf, bw =>
    if size = 0 then (0, d)
    else
      let sector_idx := byte_to_sector ino d offset
      let sector_ofs := offset % BLOCK_SECTOR_SIZE
      let inode_left := ino.data.length - offset
      let sector_left := BLOCK_SECTOR_SIZE - sector_ofs
      let min_left := min inode_left sector_left
      let chunk_size := min size min_left
      if chunk_size = 0 then (0, d)
      else
        let d' :=
          if sector_ofs = 0 ∧ chunk_size = BLOCK_SECTOR_SIZE then
            Function.update d sector_idx (SectorData.raw fun c => buf (bw + c))
          else
            let base :=
              if 0 < sector_ofs ∨ chunk_size < sector_left then readRaw d sector_idx
              else fun _ => 0
            Function.update d sector_idx (SectorData.raw fun c =>
              if sector_ofs ≤ c ∧ c < sector_ofs + chunk_size then
                buf (bw + (c - sector_ofs))
              else base c)
        let rest := writeLoop fuel ino d' (size - chunk_size) (offset + chunk_size) buf (bw + chunk_size)
        (chunk_size + rest.1, rest.2)

/-- inode_write_at: returns zero at once while writes are denied,
otherwise runs the chunked write loop; returns the byte count written
and the resulting disk. -/
def inode_write_at (ino : inode) (d : Disk) (size offset : Nat) (buf : Nat → Nat) :
    Nat × Disk :=
  if ino.deny_write_cnt ≠ 0 then (0, d)
  else writeLoop size ino d size offset buf 0

/-- inode_deny_write: raise the deny-write counter. -/
def inode_deny_write (ino : inode) : inode :=
  ⟨ino.sector, ino.open_cnt, ino.removed, ino.deny_write_cnt + 1, ino.data⟩

/-- inode_allow_write: lower the deny-write counter. -/
def inode_allow_write (ino : inode) : inode :=
  ⟨ino.sector, ino.open_cnt, ino.removed, ino.deny_write_cnt - 1, ino.data⟩

/-- inode_length: the cached length field. -/
def inode_length (ino : inode) : Nat := ino.data.length

/-- inode_get_inumber: the inode's sector number. -/
def inode_get_inumber (ino : inode) : Nat := ino.sector

/-- The scan of the open_inodes list performed by inode_open: first
registered record with the given sector number. -/
def findRecord : List inode → Nat → Option inode
  | [], _ => none
  | r :: rest, sec => if r.sector = sec then some r else findRecord rest sec

/-- In-place increment of the opener count of the first record with
the given sector number (the effect of inode_reopen on the record the
scan found). -/
def bumpFirst : List inode → Nat → List inode
  | [], _ => []
  | r :: rest, sec =>
    if r.sector = sec then
      ⟨r.sector, r.open_cnt + 1, r.removed, r.deny_write_cnt, r.data⟩ :: rest
    else r :: bumpFirst rest sec

/-- In-place decrement of the opener count of the first record with
the given sector number. -/
def decFirst : List inode → Nat → List inode
  | [], _ => []
  | r :: rest, sec =>
    if r.sector = sec then
      ⟨r.sector, r.open_cnt - 1, r.removed, r.deny_write_cnt, r.data⟩ :: rest
    else r :: decFirst rest sec

/-- list_remove of the first record with the given sector number. -/
def removeFirst : List inode → Nat → List inode
  | [], _ => []
  | r :: rest, sec => if r.sector = sec then rest else r :: removeFirst rest sec

/-- inode_open: scan the open-inode registry for the sector; on a hit
reopen the found record and return it, otherwise register a fresh
record, opener count 1, with the on-disk inode record read from the
sector.  Returns the record handed to the caller and the registry. -/
def inode_open (sec : Nat) (opens : List inode) (d : Disk) : inode × List inode :=
  match findRecord opens sec with
  | some r => (⟨r.sector, r.open_cnt + 1, r.removed, r.deny_write_cnt, r.data⟩,
      bumpFirst opens sec)
  | none =>
    let r : inode := ⟨sec, 1, false, 0, readNode d sec⟩
    (r, r :: opens)

/-- inode_reopen at the public interface, where the handle may be
absent: increment the opener count of the handle's record. -/
def inode_reopen (h : Option Nat) (opens : List inode) : Option Nat × List inode :=
  match h with
  | none => (none, opens)
  | some sec => (some sec, bumpFirst opens sec)

/-- inode_remove: mark the first record with the given sector number
as removed. -/
def inode_remove : List inode → Nat → List inode
  | [], _ => []
  | r :: rest, sec =>
    if r.sector = sec then
      ⟨r.sector, r.open_cnt, true, r.deny_write_cnt, r.data⟩ :: rest
    else r :: inode_remove rest sec

/-- The direct part of the deallocation walk in inode_close:
for (i = 0; i < DIRECT_BLOCK and i < index; i++) release slot i;
counted translation starting at slot i. -/
def releaseDirectAux : Nat → Nat → inode_disk → FMap → FMap
  | _, 0, _, fm => fm
  | i, cnt + 1, dn, fm =>
    releaseDirectAux (i + 1) cnt dn (free_map_release fm (dn.sectors i))

/-- The inner while-loop of the deallocation walk, releasing the data
sectors named by one second-level indirect block: while i < index and
r < 128 release slot r; counted translation starting at slot r. -/
def closeInnerAux : Nat → Nat → (Nat → Nat) → FMap → FMap
  | _, 0, _, fm => fm
  | r, cnt + 1, sl, fm => closeInnerAux (r + 1) cnt sl (free_map_release fm (sl r))

/-- The outer while-loop of the deallocation walk: while i < index,
read the second-level indirect block named by first-level slot k,
release the data sectors it names, release the second-level block
itself, and advance.  Fuelled; i rises by at least one per iteration,
so fuel = index suffices at every call site. -/
def closeOuter : Nat → (Nat → Nat) → Disk → Nat → Nat → Nat → FMap → FMap
  | 0, _, _, _, _, _, fm => fm
  | fuel + 1, fl, d, index, i, k, fm =>
    if i < index then
      let sl := readIB d (fl k)
      let cnt := min (index - i) 128
      let fm1 := closeInnerAux 0 cnt sl fm
      let fm2 := free_map_release fm1 (fl k)
      closeOuter fuel fl d index (i + cnt) (k + 1) fm2
    else fm

/-- The whole deallocation walk inode_close runs for a removed inode:
index = length / BLOCK_SECTOR_SIZE; release the direct data sectors
below index, then, when index goes past the direct slots, walk the
index tree, and finally release the inode's own sector. -/
def releaseAll (r : inode) (fm : FMap) (d : Disk) : FMap :=
  let index := r.data.length / BLOCK_SECTOR_SIZE
  let fm1 := releaseDirectAux 0 (min DIRECT_BLOCK index) r.data fm
  let i := min DIRECT_BLOCK index
  let fm2 :=
    if i < index then
      closeOuter index (readIB d r.data.ib) d index i 0 fm1
    else fm1
  free_map_release fm2 r.sector

/-- inode_close at the public interface: a null handle is ignored;
otherwise decrement the record's opener count, and at zero unregister
it and, when it was marked removed, run the deallocation walk.
Returns the registry and allocator state. -/
def inode_close (h : Option Nat) (opens : List inode) (fm : FMap) (d : Disk) :
    List inode × FMap :=
  match h with
  | none => (opens, fm)
  | some sec =>
    match findRecord opens sec with
    | none => (opens, fm)
    | some r =>
      if r.open_cnt - 1 = 0 then
        let opens' := removeFirst opens sec
        let fm' := if r.removed then releaseAll r fm d else fm
        (opens', fm')
      else (decFirst opens sec, fm)

/-! ## Basic facts about the address translator -/

/-- byte_to_sector on a direct-range offset reads no index sector. -/
theorem bts_direct (ino : inode) (d : Disk) (pos : Nat)
    (h1 : pos < ino.data.length) (h2 : pos / BLOCK_SECTOR_SIZE < DIRECT_BLOCK) :
    byte_to_sector ino d pos = ino.data.sectors (pos / BLOCK_SECTOR_SIZE) := by
  unfold byte_to_sector
  rw [if_pos h1, if_pos h2]

/-- byte_to_sector on an indirect-range offset walks the two index
levels. -/
theorem bts_indirect (ino : inode) (d : Disk) (pos : Nat)
    (h1 : pos < ino.data.length) (h2 : DIRECT_BLOCK ≤ pos / BLOCK_SECTOR_SIZE) :
    byte_to_sector ino d pos =
      readIB d (readIB d ino.data.ib ((pos / BLOCK_SECTOR_SIZE - DIRECT_BLOCK) / 128))
        ((pos / BLOCK_SECTOR_SIZE - DIRECT_BLOCK) % 128) := by
  unfold byte_to_sector
  rw [if_pos h1, if_neg (by omega)]

/-- byte_to_sector past the length returns the not-found sentinel. -/
theorem bts_not_found (ino : inode) (d : Disk) (pos : Nat)
    (h : ino.data.length ≤ pos) :
    byte_to_sector ino d pos = NOT_FOUND := by
  unfold byte_to_sector
  rw [if_neg (by omega)]

/-! ## Concrete sample states used by evaluation theorems -/

/-- Sectors the sample allocator hands out, in order: 1000, 1001, .... -/
def sampleSupply : List Nat := (List.range 300).map fun k => 1000 + k

/-- A well-stocked sample allocator. -/
def fmSample : FMap := ⟨sampleSupply, 100000, []⟩

/-- An exhausted sample allocator. -/
def fmPoor : FMap := ⟨[], 0, []⟩

/-- A blank disk. -/
def dEmpty : Disk := fun _ => SectorData.uninit

/-- Sample direct-only open inode: 1000-byte file at sector 5 whose
direct slot i holds sector 50 + i. -/
def sampleIno : inode := ⟨5, 1, false, 0, ⟨fun i => 50 + i, 0, false, 1000, 0⟩⟩

/-- sampleIno with one deny_write outstanding. -/
def sampleInoDeny : inode := ⟨5, 1, false, 1, ⟨fun i => 50 + i, 0, false, 1000, 0⟩⟩

/-- A disk carrying a small index tree: sector 300 is a first-level
index block whose slot 0 names 301, and sector 301 is a second-level
index block whose slot r names 400 + r. -/
def diskTree : Disk := fun s =>
  if s = 300 then SectorData.ib fun k => if k = 0 then 301 else 0
  else if s = 301 then SectorData.ib fun r => 400 + r
  else SectorData.uninit

/-- Sample indirect-range open inode: a 70000-byte file at sector 5
whose first-level index sector is 300 on diskTree. -/
def sampleInoBig : inode := ⟨5, 1, false, 0, ⟨fun i => 50 + i, 300, false, 70000, 0⟩⟩

/-- A removed open inode for a 600-byte file at sector 10 whose two
data sectors are 7 and 8. -/
def removed600 : inode :=
  ⟨10, 1, true, 0, ⟨Function.update (Function.update (fun _ => 0) 0 7) 1 8, 0, false, 600, 0⟩⟩

/-- A removed open inode for a (124 + 128)-sector file at sector 10:
direct slot i holds 100 + i, the first-level index sector is 300, and
on diskTree its single second-level index sector 301 names data
sectors 400..527. -/
def removed252 : inode := ⟨10, 1, true, 0, ⟨fun i => 100 + i, 300, false, 252 * 512, 0⟩⟩

/-! ## Claims C1, C2, C3, C4, C6, C10 -/

/-- Claim C1, evaluated at its failing input: for length 70000 — 137
data sectors — the planner returns 138 total sectors, one fewer than
the 139 the claim states, because the second-level index count
(137 - 124) / 128 rounds down to 0.  Driven by that total, creation
succeeds but leaves the in-range byte offset of the 137th data sector
resolving to sector 0, which the allocator never handed out. -/
theorem claim_C1 :
    compute_total_sectors (bytes_to_sectors 70000) = 138 ∧
    (inode_create 10 70000 fmSample dEmpty).1 = true ∧
    136 * 512 < 70000 ∧
    byte_to_sector (inode_open 10 [] (inode_create 10 70000 fmSample dEmpty).2.2).1
      (inode_create 10 70000 fmSample dEmpty).2.2 (136 * 512) = 0 ∧
    (∀ s ∈ sampleSupply, s ≠ 0) := by decide

/-- Claim C2, evaluated at its failing inputs.  Closing the last
handle of the removed 600-byte file with data sectors 7 and 8 and
inode sector 10 releases only [7, 10]: the walk bounds itself by
length / 512 = 1 and leaks the final partial data sector 8, so the
free count rises by 2, not 3.  Closing the removed (124+128)-sector
file releases 254 sectors but never its first-level index sector
300. -/
theorem claim_C2 :
    (inode_close (some 10) [removed600] ⟨[], 50, []⟩ dEmpty).2.released = [7, 10] ∧
    (inode_close (some 10) [removed600] ⟨[], 50, []⟩ dEmpty).2.freeCnt = 52 ∧
    (inode_close (some 10) [removed252] ⟨[], 50, []⟩ diskTree).2.released.length = 254 ∧
    300 ∉ (inode_close (some 10) [removed252] ⟨[], 50, []⟩ diskTree).2.released ∧
    removed252.data.ib = 300 := by decide

/-- Claim C3: byte-offset resolution returns the not-found sentinel
at or past the length; below the length it returns the direct slot at
index pos / 512 when that index is below 124, and otherwise the data
sector named at slot (index - 124) mod 128 of the second-level index
sector named at slot (index - 124) / 128 of the first-level index
sector. -/
theorem claim_C3 (ino : inode) (d : Disk) (pos : Nat) :
    (ino.data.length ≤ pos → byte_to_sector ino d pos = NOT_FOUND) ∧
    (pos < ino.data.length → pos / BLOCK_SECTOR_SIZE < DIRECT_BLOCK →
      byte_to_sector ino d pos = ino.data.sectors (pos / BLOCK_SECTOR_SIZE)) ∧
    (pos < ino.data.length → DIRECT_BLOCK ≤ pos / BLOCK_SECTOR_SIZE →
      byte_to_sector ino d pos =
        readIB d (readIB d ino.data.ib ((pos / BLOCK_SECTOR_SIZE - DIRECT_BLOCK) / 128))
          ((pos / BLOCK_SECTOR_SIZE - DIRECT_BLOCK) % 128)) :=
  ⟨fun h => bts_not_found ino d pos h,
   fun h1 h2 => bts_direct ino d pos h1 h2,
   fun h1 h2 => bts_indirect ino d pos h1 h2⟩

/-- Witness for claim C3 at concrete inputs: offset 1000 of the
1000-byte sample file is not found; offset 600 resolves through
direct slot 1; offset 66560 (sector index 130) of the 70000-byte
sample file resolves through first-level slot 0 and second-level slot
6 of the sample index tree. -/
theorem claim_C3_witness :
    (sampleIno.data.length ≤ 1000 ∧ byte_to_sector sampleIno dEmpty 1000 = NOT_FOUND) ∧
    (600 < sampleIno.data.length ∧ 600 / BLOCK_SECTOR_SIZE < DIRECT_BLOCK ∧
      byte_to_sector sampleIno dEmpty 600 = sampleIno.data.sectors (600 / BLOCK_SECTOR_SIZE)) ∧
    (66560 < sampleInoBig.data.length ∧ DIRECT_BLOCK ≤ 66560 / BLOCK_SECTOR_SIZE ∧
      byte_to_sector sampleInoBig diskTree 66560 =
        readIB diskTree (readIB diskTree sampleInoBig.data.ib
          ((66560 / BLOCK_SECTOR_SIZE - DIRECT_BLOCK) / 128))
          ((66560 / BLOCK_SECTOR_SIZE - DIRECT_BLOCK) % 128)) :=
  ⟨⟨by decide, (claim_C3 sampleIno dEmpty 1000).1 (by decide)⟩,
   ⟨by decide, by decide, (claim_C3 sampleIno dEmpty 600).2.1 (by decide) (by decide)⟩,
   ⟨by decide, by decide, (claim_C3 sampleInoBig diskTree 66560).2.2 (by decide) (by decide)⟩⟩

/-- Claim C4: when the computed total exceeds the addressing ceiling,
or the allocator has fewer than total + 1 free sectors, create
returns false with the allocator state and the disk unchanged. -/
theorem claim_C4 (sector length : Nat) (fm : FMap) (d : Disk)
    (h : MAX_BLOCK_NUMBER < compute_total_sectors (bytes_to_sectors length) ∨
      free_map_unused fm < compute_total_sectors (bytes_to_sectors length) + 1) :
    inode_create sector length fm d = (false, fm, d) := by
  unfold inode_create
  by_cases hM : compute_total_sectors (bytes_to_sectors length) > MAX_BLOCK_NUMBER
  · rw [if_pos hM]
  · rw [if_neg hM]
    rw [if_neg (show ¬ free_map_unused fm ≥
      compute_total_sectors (bytes_to_sectors length) + 1 by omega)]

/-- Witness for claim C4 at concrete inputs: creation of a
16509-sector file fails on the ceiling even with a stocked allocator,
and creation of an empty file fails on an exhausted allocator; both
leave the state unchanged. -/
theorem claim_C4_witness :
    (MAX_BLOCK_NUMBER < compute_total_sectors (bytes_to_sectors (16509 * 512)) ∨
      free_map_unused fmSample < compute_total_sectors (bytes_to_sectors (16509 * 512)) + 1) ∧
    inode_create 3 (16509 * 512) fmSample dEmpty = (false, fmSample, dEmpty) ∧
    (MAX_BLOCK_NUMBER < compute_total_sectors (bytes_to_sectors 0) ∨
      free_map_unused fmPoor < compute_total_sectors (bytes_to_sectors 0) + 1) ∧
    inode_create 3 0 fmPoor dEmpty = (false, fmPoor, dEmpty) :=
  ⟨by decide, claim_C4 3 (16509 * 512) fmSample dEmpty (by decide),
   by decide, claim_C4 3 0 fmPoor dEmpty (by decide)⟩

/-- Claim C6: while the deny-write counter is positive every write
returns 0 bytes and leaves the disk unchanged; a matching allow_write
undoes a deny_write exactly, and with the counter at zero write runs
the normal chunked write loop. -/
theorem claim_C6 (ino : inode) (d : Disk) (size offset : Nat) (buf : Nat → Nat) :
    (0 < ino.deny_write_cnt → inode_write_at ino d size offset buf = (0, d)) ∧
    inode_allow_write (inode_deny_write ino) = ino ∧
    (ino.deny_write_cnt = 0 →
      inode_write_at ino d size offset buf = writeLoop size ino d size offset buf 0) := by
  refine ⟨?_, ?_, ?_⟩
  · intro h
    unfold inode_write_at
    rw [if_pos (by omega)]
  · unfold inode_allow_write inode_deny_write
    cases ino
    simp
  · intro h
    unfold inode_write_at
    rw [if_neg (by simp [h])]

/-- Witness for claim C6 at concrete inputs: a 10-byte write to the
sample inode with one deny_write outstanding transfers nothing and
changes nothing, and with the counter at zero it runs the normal
loop. -/
theorem claim_C6_witness :
    (0 < sampleInoDeny.deny_write_cnt ∧
      inode_write_at sampleInoDeny dEmpty 10 0 (fun _ => 7) = (0, dEmpty)) ∧
    (sampleIno.deny_write_cnt = 0 ∧
      inode_write_at sampleIno dEmpty 10 0 (fun _ => 7) =
        writeLoop 10 sampleIno dEmpty 10 0 (fun _ => 7) 0) :=
  ⟨⟨by decide, (claim_C6 sampleInoDeny dEmpty 10 0 (fun _ => 7)).1 (by decide)⟩,
   ⟨by decide, (claim_C6 sampleIno dEmpty 10 0 (fun _ => 7)).2.2 (by decide)⟩⟩

/-- Claim C10: a null handle is tolerated at the public interface:
close returns leaving registry and allocator untouched, and reopen
returns null leaving the registry untouched. -/
theorem claim_C10 (opens : List inode) (fm : FMap) (d : Disk) :
    inode_close none opens fm d = (opens, fm) ∧
    inode_reopen none opens = (none, opens) :=
  ⟨rfl, rfl⟩

/-! ## Claim C7: read transfer count -/

/-- The chunked read loop transfers exactly min (size, length - offset)
bytes and delivers exactly that many bytes, as long as the fuel covers
the iteration count (each iteration moves at least one byte). -/
theorem readLoop_spec (fuel : Nat) : ∀ (ino : inode) (d : Disk) (size offset : Nat),
    size ≤ fuel →
    (readLoop fuel ino d size offset).1 = min size (ino.data.length - offset) ∧
    (readLoop fuel ino d size offset).2.length = (readLoop fuel ino d size offset).1 := by
  induction fuel with
  | zero =>
    intro ino d size offset h
    have hz : size = 0 := by omega
    subst hz
    simp [readLoop]
  | succ f ih =>
    intro ino d size offset h
    by_cases h0 : size = 0
    · subst h0
      simp [readLoop]
    · have hmod : offset % 512 < 512 := Nat.mod_lt _ (by norm_num)
      simp only [readLoop, BLOCK_SECTOR_SIZE]
      rw [if_neg h0]
      by_cases hc : min size (min (ino.data.length - offset) (512 - offset % 512)) = 0
      · rw [if_pos hc]
        constructor
        · simp only []
          omega
        · rfl
      · rw [if_neg hc]
        obtain ⟨ih1, ih2⟩ := ih ino d
          (size - min size (min (ino.data.length - offset) (512 - offset % 512)))
          (offset + min size (min (ino.data.length - offset) (512 - offset % 512)))
          (by omega)
        constructor
        · simp only []
          omega
        · simp only [List.length_append, List.length_map, List.length_range, ih2, ih1]
          by_cases hfull : offset % 512 = 0 ∧
              min size (min (ino.data.length - offset) (512 - offset % 512)) = 512
          · rw [if_pos hfull]
            simp only [List.length_map, List.length_range]
            omega
          · rw [if_neg hfull]
            simp only [List.length_map, List.length_range]

/-- Claim C7: a read of size bytes at a byte offset transfers exactly
min (size, length - offset) bytes (truncated subtraction renders
max (0, L - o)), delivers exactly that many bytes to the caller, and
never moves the read cursor past the length. -/
theorem claim_C7 (ino : inode) (d : Disk) (size offset : Nat) :
    (inode_read_at ino d size offset).1 = min size (ino.data.length - offset) ∧
    (inode_read_at ino d size offset).2.length = (inode_read_at ino d size offset).1 ∧
    offset + (inode_read_at ino d size offset).1 ≤ max offset ino.data.length := by
  obtain ⟨h1, h2⟩ := readLoop_spec size ino d size offset (le_refl size)
  refine ⟨h1, h2, ?_⟩
  unfold inode_read_at
  omega

/-! ## Claim C8: open-inode registry sharing -/

/-- Claim C8: opening a sector already in the registry returns that
record with its opener count raised by one; opening an unregistered
sector registers a fresh record with opener count 1 whose cached data
is read from disk; two opens of the same sector therefore share one
record with one count, and closing one of the two handles leaves the
record registered with count 1. -/
theorem claim_C8 (sec : Nat) (opens : List inode) (d : Disk) (fm : FMap) (r : inode) :
    (findRecord opens sec = some r →
      inode_open sec opens d =
        (⟨r.sector, r.open_cnt + 1, r.removed, r.deny_write_cnt, r.data⟩,
          bumpFirst opens sec)) ∧
    (findRecord opens sec = none →
      inode_open sec opens d =
        (⟨sec, 1, false, 0, readNode d sec⟩, ⟨sec, 1, false, 0, readNode d sec⟩ :: opens)) ∧
    (inode_open sec (inode_open sec [] d).2 d).2 = [⟨sec, 2, false, 0, readNode d sec⟩] ∧
    inode_close (some sec) [⟨sec, 2, false, 0, readNode d sec⟩] fm d =
      ([⟨sec, 1, false, 0, readNode d sec⟩], fm) := by
  refine ⟨?_, ?_, ?_, ?_⟩
  · intro h
    unfold inode_open
    rw [h]
  · intro h
    unfold inode_open
    rw [h]
  · simp only [inode_open, findRecord, if_pos rfl]
    norm_num [bumpFirst]
  · simp only [inode_close, findRecord, if_pos rfl]
    norm_num [decFirst]

/-- Witness for claim C8 at concrete inputs: opening sector 5 with the
sample record registered bumps its count in place, and opening sector 9
on an empty registry registers a fresh record of count 1. -/
theorem claim_C8_witness :
    (findRecord [sampleIno] 5 = some sampleIno ∧
      inode_open 5 [sampleIno] dEmpty =
        (⟨sampleIno.sector, sampleIno.open_cnt + 1, sampleIno.removed,
          sampleIno.deny_write_cnt, sampleIno.data⟩, bumpFirst [sampleIno] 5)) ∧
    (findRecord ([] : List inode) 9 = none ∧
      inode_open 9 [] dEmpty =
        (⟨9, 1, false, 0, readNode dEmpty 9⟩, ⟨9, 1, false, 0, readNode dEmpty 9⟩ :: [])) :=
  ⟨⟨rfl, (claim_C8 5 [sampleIno] dEmpty fmPoor sampleIno).1 rfl⟩,
   ⟨rfl, (claim_C8 9 [] dEmpty fmPoor sampleIno).2.1 rfl⟩⟩

/-! ## Claim C9: created length is observable, empty files allocate nothing -/

/-- The direct-slot allocation loop changes no inode-record field other
than the direct slots. -/
theorem allocDirectAux_length (cnt : Nat) : ∀ (i : Nat) (dn : inode_disk) (fm : FMap),
    ((allocDirectAux i cnt dn fm).1).length = dn.length := by
  induction cnt with
  | zero => intro i dn fm; rfl
  | succ n ih => intro i dn fm; exact ih (i + 1) _ _

/-- Reading back the inode record just written to a sector. -/
theorem readNode_update (d : Disk) (s : Nat) (dn : inode_disk) :
    readNode (Function.update d s (SectorData.node dn)) s = dn := by
  unfold readNode
  rw [Function.update_same]

/-- write_sectors_to_disk keeps the length stored in the inode
record. -/
theorem write_sectors_to_disk_length (total : Nat) (dn : inode_disk) (fm : FMap) (d : Disk) :
    ((write_sectors_to_disk total dn fm d).1).length = dn.length := by
  unfold write_sectors_to_disk
  by_cases h : min total DIRECT_BLOCK < total
  · rw [if_pos h]
    exact allocDirectAux_length _ 0 dn fm
  · rw [if_neg h]
    exact allocDirectAux_length _ 0 dn fm

/-- Claim C9: for lengths up to the 16508-data-sector addressing
ceiling, with enough free sectors, creation succeeds and a subsequent
open observes exactly the requested length; a zero-length create
touches the allocator not at all and writes only the inode record,
with length 0 and the magic sentinel, to the given sector. -/
theorem claim_C9 (sector length : Nat) (fm : FMap) (d : Disk)
    (hlen : length ≤ 16508 * 512)
    (hfree : compute_total_sectors (bytes_to_sectors length) + 1 ≤ free_map_unused fm) :
    (inode_create sector length fm d).1 = true ∧
    inode_length (inode_open sector [] (inode_create sector length fm d).2.2).1 = length ∧
    (length = 0 → inode_create sector length fm d =
      (true, fm, Function.update d sector
        (SectorData.node ⟨fun _ => 0, 0, false, 0, INODE_MAGIC⟩))) := by
  have hsec : bytes_to_sectors length ≤ 16508 := by
    unfold bytes_to_sectors BLOCK_SECTOR_SIZE
    omega
  have htot : compute_total_sectors (bytes_to_sectors length) ≤ MAX_BLOCK_NUMBER := by
    unfold compute_total_sectors DIRECT_BLOCK MAX_BLOCK_NUMBER
    by_cases hd : bytes_to_sectors length ≤ 124
    · rw [if_pos hd]
      omega
    · rw [if_neg hd]
      have hq : (bytes_to_sectors length - 124) / 128 ≤ 16384 / 128 :=
        Nat.div_le_div_right (by omega)
      dsimp only
      omega
  have hcreate : inode_create sector length fm d =
      (true, (write_sectors_to_disk (compute_total_sectors (bytes_to_sectors length))
          ⟨zeroNode.sectors, zeroNode.ib, zeroNode.is_directory, length, INODE_MAGIC⟩ fm d).2.1,
        Function.update
          (write_sectors_to_disk (compute_total_sectors (bytes_to_sectors length))
            ⟨zeroNode.sectors, zeroNode.ib, zeroNode.is_directory, length, INODE_MAGIC⟩ fm d).2.2
          sector
          (SectorData.node
            (write_sectors_to_disk (compute_total_sectors (bytes_to_sectors length))
              ⟨zeroNode.sectors, zeroNode.ib, zeroNode.is_directory, length, INODE_MAGIC⟩ fm d).1)) := by
    unfold inode_create
    rw [if_neg (by omega), if_pos (by omega)]
  refine ⟨by rw [hcreate], ?_, ?_⟩
  · rw [hcreate]
    simp only [inode_open, findRecord, inode_length, readNode_update]
    exact write_sectors_to_disk_length _ _ fm d
  · intro h0
    subst h0
    have hbs : bytes_to_sectors 0 = 0 := by decide
    have hct : compute_total_sectors 0 = 0 := by decide
    rw [hcreate, hbs, hct]
    unfold write_sectors_to_disk
    rw [if_neg (by decide)]
    rfl

/-- Witness for claim C9 at concrete inputs: creating an empty file at
sector 7 and a 600-byte file at sector 7 with the sample allocator. -/
theorem claim_C9_witness :
    ((0 : Nat) ≤ 16508 * 512 ∧
      compute_total_sectors (bytes_to_sectors 0) + 1 ≤ free_map_unused fmSample ∧
      (inode_create 7 0 fmSample dEmpty).1 = true ∧
      inode_length (inode_open 7 [] (inode_create 7 0 fmSample dEmpty).2.2).1 = 0) ∧
    ((600 : Nat) ≤ 16508 * 512 ∧
      compute_total_sectors (bytes_to_sectors 600) + 1 ≤ free_map_unused fmSample ∧
      (inode_create 7 600 fmSample dEmpty).1 = true ∧
      inode_length (inode_open 7 [] (inode_create 7 600 fmSample dEmpty).2.2).1 = 600) :=
  ⟨⟨by decide, by decide,
    (claim_C9 7 0 fmSample dEmpty (by decide) (by decide)).1,
    (claim_C9 7 0 fmSample dEmpty (by decide) (by decide)).2.1⟩,
   ⟨by decide, by decide,
    (claim_C9 7 600 fmSample dEmpty (by decide) (by decide)).1,
    (claim_C9 7 600 fmSample dEmpty (by decide) (by decide)).2.1⟩⟩

/-! ## Claim C5: write/read round trip

The round trip is proved through three generic lemmas — the write loop
over whole aligned sectors, the read loop over whole aligned sectors,
and the assembly — parameterized by the address map i ↦ A i the
translator realizes for the file's i-th sector and by the list IS of
index sectors the translator consults, which the data sectors must
avoid.  The per-length instances discharge those side conditions by
evaluation on the state inode_create actually builds. -/

/-- Two disks agree on every sector in the list IS. -/
def agreeOn (IS : List Nat) (d d0 : Disk) : Prop :=
  ∀ s, s ∈ IS → d s = d0 s

/-- Reading an indirect block only depends on the sector's content. -/
theorem readIB_congr {d d' : Disk} {s : Nat} (h : d' s = d s) :
    readIB d' s = readIB d s := by
  unfold readIB
  rw [h]

/-- One full aligned iteration of the write loop: sector-aligned
offset, at least one sector of request and of file left, so the chunk
is a whole sector written straight from the buffer. -/
theorem writeLoop_step (f : Nat) (ino : inode) (d : Disk) (size offset : Nat)
    (buf : Nat → Nat) (bw : Nat)
    (hofs : offset % BLOCK_SECTOR_SIZE = 0) (hsize : BLOCK_SECTOR_SIZE ≤ size)
    (hleft : offset + BLOCK_SECTOR_SIZE ≤ ino.data.length) :
    writeLoop (f + 1) ino d size offset buf bw =
      (BLOCK_SECTOR_SIZE +
        (writeLoop f ino
          (Function.update d (byte_to_sector ino d offset) (SectorData.raw fun c => buf (bw + c)))
          (size - BLOCK_SECTOR_SIZE) (offset + BLOCK_SECTOR_SIZE) buf (bw + BLOCK_SECTOR_SIZE)).1,
        (writeLoop f ino
          (Function.update d (byte_to_sector ino d offset) (SectorData.raw fun c => buf (bw + c)))
          (size - BLOCK_SECTOR_SIZE) (offset + BLOCK_SECTOR_SIZE) buf (bw + BLOCK_SECTOR_SIZE)).2) := by
  simp only [BLOCK_SECTOR_SIZE] at hofs hsize hleft ⊢
  simp only [writeLoop, BLOCK_SECTOR_SIZE]
  have hch : min size (min (ino.data.length - offset) (512 - offset % 512)) = 512 := by
    omega
  rw [hch]
  rw [if_neg (by omega : ¬ size = 0), if_neg (by omega : ¬ (512:Nat) = 0),
    if_pos (⟨hofs, rfl⟩ : offset % 512 = 0 ∧ (512:Nat) = 512)]

/-- One full aligned iteration of the read loop. -/
theorem readLoop_step (f : Nat) (ino : inode) (d : Disk) (size offset : Nat)
    (hofs : offset % BLOCK_SECTOR_SIZE = 0) (hsize : BLOCK_SECTOR_SIZE ≤ size)
    (hleft : offset + BLOCK_SECTOR_SIZE ≤ ino.data.length) :
    readLoop (f + 1) ino d size offset =
      (BLOCK_SECTOR_SIZE +
        (readLoop f ino d (size - BLOCK_SECTOR_SIZE) (offset + BLOCK_SECTOR_SIZE)).1,
        (List.range BLOCK_SECTOR_SIZE).map (readRaw d (byte_to_sector ino d offset)) ++
          (readLoop f ino d (size - BLOCK_SECTOR_SIZE) (offset + BLOCK_SECTOR_SIZE)).2) := by
  simp only [BLOCK_SECTOR_SIZE] at hofs hsize hleft ⊢
  simp only [readLoop, BLOCK_SECTOR_SIZE]
  have hch : min size (min (ino.data.length - offset) (512 - offset % 512)) = 512 := by
    omega
  rw [hch]
  rw [if_neg (by omega : ¬ size = 0), if_neg (by omega : ¬ (512:Nat) = 0),
    if_pos (⟨hofs, rfl⟩ : offset % 512 = 0 ∧ (512:Nat) = 512)]

/-- The write loop over m whole sectors starting at sector j of the
file: it writes exactly the m sectors the translator names, each
getting the matching slice of the buffer, touches nothing else, and
in particular preserves every index sector. -/
theorem writeLoop_full (ino : inode) (d0 : Disk) (IS : List Nat) (A : Nat → Nat)
    (n : Nat) (buf : Nat → Nat)
    (hA : ∀ i, i < n → ∀ d', agreeOn IS d' d0 →
      byte_to_sector ino d' (BLOCK_SECTOR_SIZE * i) = A i)
    (hAIS : ∀ i, i < n → A i ∉ IS)
    (hlen : ino.data.length = BLOCK_SECTOR_SIZE * n) :
    ∀ (m : Nat), ∀ (j fuel bw : Nat), ∀ (d : Disk), j + m ≤ n → m ≤ fuel → agreeOn IS d d0 →
      (writeLoop fuel ino d (BLOCK_SECTOR_SIZE * m) (BLOCK_SECTOR_SIZE * j) buf bw).1 =
        BLOCK_SECTOR_SIZE * m ∧
      agreeOn IS (writeLoop fuel ino d (BLOCK_SECTOR_SIZE * m) (BLOCK_SECTOR_SIZE * j) buf bw).2
        d0 ∧
      (∀ s, (∀ t, t < m → A (j + t) ≠ s) →
        (writeLoop fuel ino d (BLOCK_SECTOR_SIZE * m) (BLOCK_SECTOR_SIZE * j) buf bw).2 s = d s) ∧
      (∀ t, t < m → (∀ u, t < u → u < m → A (j + u) ≠ A (j + t)) →
        (writeLoop fuel ino d (BLOCK_SECTOR_SIZE * m) (BLOCK_SECTOR_SIZE * j) buf bw).2 (A (j + t)) =
          SectorData.raw fun c => buf (bw + BLOCK_SECTOR_SIZE * t + c)) := by
  intro m
  induction m with
  | zero =>
    intro j fuel bw d hjm hfuel hag
    have hz : writeLoop fuel ino d (BLOCK_SECTOR_SIZE * 0) (BLOCK_SECTOR_SIZE * j) buf bw =
        (0, d) := by
      cases fuel with
      | zero => rfl
      | succ f => simp [writeLoop]
    rw [hz]
    exact ⟨by simp, hag, fun s _ => rfl, fun t ht => absurd ht (by omega)⟩
  | succ m ih =>
    intro j fuel bw d hjm hfuel hag
    obtain ⟨f, rfl⟩ : ∃ f, fuel = f + 1 := ⟨fuel - 1, by omega⟩
    have hbts : byte_to_sector ino d (BLOCK_SECTOR_SIZE * j) = A j :=
      hA j (by omega) d hag
    have hstep := writeLoop_step f ino d (BLOCK_SECTOR_SIZE * (m + 1)) (BLOCK_SECTOR_SIZE * j)
      buf bw (Nat.mul_mod_right _ _)
      (by simp only [BLOCK_SECTOR_SIZE]; omega)
      (by simp only [hlen, BLOCK_SECTOR_SIZE]; omega)
    rw [hbts] at hstep
    have harg1 : BLOCK_SECTOR_SIZE * (m + 1) - BLOCK_SECTOR_SIZE = BLOCK_SECTOR_SIZE * m := by
      simp only [BLOCK_SECTOR_SIZE]; omega
    have harg2 : BLOCK_SECTOR_SIZE * j + BLOCK_SECTOR_SIZE = BLOCK_SECTOR_SIZE * (j + 1) := by
      simp only [BLOCK_SECTOR_SIZE]; omega
    rw [harg1, harg2] at hstep
    have hagd' : agreeOn IS
        (Function.update d (A j) (SectorData.raw fun c => buf (bw + c))) d0 := by
      intro s hs
      have hne : s ≠ A j := fun he => hAIS j (by omega) (by rw [← he]; exact hs)
      rw [Function.update_noteq hne _ _]
      exact hag s hs
    obtain ⟨ih1, ih2, ih3, ih4⟩ := ih (j + 1) f (bw + BLOCK_SECTOR_SIZE)
      (Function.update d (A j) (SectorData.raw fun c => buf (bw + c)))
      (by omega) (by omega) hagd'
    refine ⟨?_, ?_, ?_, ?_⟩
    · rw [hstep]
      dsimp only
      rw [ih1]
      ring
    · rw [hstep]
      exact ih2
    · intro s hs
      rw [hstep]
      dsimp only
      have h3 := ih3 s (by
        intro t ht
        have := hs (t + 1) (by omega)
        rwa [show j + (t + 1) = j + 1 + t by omega] at this)
      have h0 := hs 0 (by omega)
      rw [Nat.add_zero] at h0
      rw [h3, Function.update_noteq (Ne.symm h0) _ _]
    · intro t ht hside
      rw [hstep]
      dsimp only
      cases t with
      | zero =>
        have h3 := ih3 (A (j + 0)) (by
          intro u hu
          have := hside (u + 1) (by omega) (by omega)
          rwa [show j + (u + 1) = j + 1 + u by omega] at this)
        rw [h3, Nat.add_zero, Function.update_same]
        have : (fun c => buf (bw + c)) = fun c => buf (bw + BLOCK_SECTOR_SIZE * 0 + c) := by
          funext c
          rw [Nat.mul_zero, Nat.add_zero]
        rw [this]
      | succ u =>
        have h4 := ih4 u (by omega) (by
          intro v hv1 hv2
          have := hside (v + 1) (by omega) (by omega)
          rw [show j + (v + 1) = j + 1 + v by omega,
            show j + (u + 1) = j + 1 + u by omega] at this
          exact this)
        rw [show j + (u + 1) = j + 1 + u by omega, h4]
        have : (fun c => buf (bw + BLOCK_SECTOR_SIZE + BLOCK_SECTOR_SIZE * u + c)) =
            fun c => buf (bw + BLOCK_SECTOR_SIZE * (u + 1) + c) := by
          funext c
          have : bw + BLOCK_SECTOR_SIZE + BLOCK_SECTOR_SIZE * u =
              bw + BLOCK_SECTOR_SIZE * (u + 1) := by ring
          rw [this]
        rw [this]

/-- Concatenation of the per-sector chunks g j, g (j+1), ..., over m
sectors, as the read loop produces it. -/
def chunkList (g : Nat → List Nat) : Nat → Nat → List Nat
  | _, 0 => []
  | j, m + 1 => g j ++ chunkList g (j + 1) m

/-- chunkList only looks at its chunk function inside the window. -/
theorem chunkList_congr (g1 g2 : Nat → List Nat) : ∀ (m j : Nat),
    (∀ t, j ≤ t → t < j + m → g1 t = g2 t) →
    chunkList g1 j m = chunkList g2 j m := by
  intro m
  induction m with
  | zero => intro j h; rfl
  | succ m ih =>
    intro j h
    unfold chunkList
    rw [h j (le_refl j) (by omega), ih (j + 1) (fun t ht1 ht2 => h t (by omega) (by omega))]

/-- Reading whole aligned sectors: the loop returns the full count and
the concatenation of the sectors the translator names. -/
theorem readLoop_full (ino : inode) (d : Disk) (A : Nat → Nat) (n : Nat)
    (hA : ∀ i, i < n → byte_to_sector ino d (BLOCK_SECTOR_SIZE * i) = A i)
    (hlen : ino.data.length = BLOCK_SECTOR_SIZE * n) :
    ∀ (m : Nat), ∀ (j fuel : Nat), j + m ≤ n → m ≤ fuel →
      readLoop fuel ino d (BLOCK_SECTOR_SIZE * m) (BLOCK_SECTOR_SIZE * j) =
        (BLOCK_SECTOR_SIZE * m,
          chunkList (fun t => (List.range BLOCK_SECTOR_SIZE).map (readRaw d (A t))) j m) := by
  intro m
  induction m with
  | zero =>
    intro j fuel hjm hfuel
    cases fuel with
    | zero => simp [readLoop, chunkList]
    | succ f => simp [readLoop, chunkList]
  | succ m ih =>
    intro j fuel hjm hfuel
    obtain ⟨f, rfl⟩ : ∃ f, fuel = f + 1 := ⟨fuel - 1, by omega⟩
    have hstep := readLoop_step f ino d (BLOCK_SECTOR_SIZE * (m + 1)) (BLOCK_SECTOR_SIZE * j)
      (Nat.mul_mod_right _ _)
      (by simp only [BLOCK_SECTOR_SIZE]; omega)
      (by simp only [hlen, BLOCK_SECTOR_SIZE]; omega)
    have harg1 : BLOCK_SECTOR_SIZE * (m + 1) - BLOCK_SECTOR_SIZE = BLOCK_SECTOR_SIZE * m := by
      simp only [BLOCK_SECTOR_SIZE]; omega
    have harg2 : BLOCK_SECTOR_SIZE * j + BLOCK_SECTOR_SIZE = BLOCK_SECTOR_SIZE * (j + 1) := by
      simp only [BLOCK_SECTOR_SIZE]; omega
    rw [harg1, harg2, hA j (by omega)] at hstep
    rw [hstep, ih (j + 1) f (by omega) (by omega)]
    dsimp only
    simp only [Prod.mk.injEq]
    exact ⟨by ring, rfl⟩

/-- In a list without duplicates, positions with equal entries are
equal. -/
theorem nodup_getD_inj (l : List Nat) (hN : l.Nodup) (i j : Nat)
    (hi : i < l.length) (hj : j < l.length) (h : l.getD i 0 = l.getD j 0) : i = j := by
  rw [List.getD_eq_getElem?_getD, List.getD_eq_getElem?_getD,
    List.getElem?_eq_getElem hi, List.getElem?_eq_getElem hj,
    Option.getD_some, Option.getD_some] at h
  exact (List.Nodup.getElem_inj_iff hN).1 h

/-- Concatenating the aligned slices of the pattern reproduces the
pattern over the whole range. -/
theorem chunkList_pattern (p : Nat → Nat) : ∀ (m j : Nat),
    chunkList (fun t => (List.range BLOCK_SECTOR_SIZE).map fun c =>
      p (BLOCK_SECTOR_SIZE * t + c)) j m =
      (List.range' (BLOCK_SECTOR_SIZE * j) (BLOCK_SECTOR_SIZE * m)).map p := by
  intro m
  induction m with
  | zero =>
    intro j
    simp [chunkList]
  | succ m ih =>
    intro j
    unfold chunkList
    rw [ih (j + 1)]
    have h1 : (List.range BLOCK_SECTOR_SIZE).map (fun c => p (BLOCK_SECTOR_SIZE * j + c)) =
        (List.range' (BLOCK_SECTOR_SIZE * j) BLOCK_SECTOR_SIZE).map p := by
      rw [List.range'_eq_map_range, List.map_map]
      rfl
    rw [h1, ← List.map_append,
      show BLOCK_SECTOR_SIZE * (j + 1) = BLOCK_SECTOR_SIZE * j + BLOCK_SECTOR_SIZE from by ring,
      List.range'_append_1,
      show BLOCK_SECTOR_SIZE * m + BLOCK_SECTOR_SIZE = BLOCK_SECTOR_SIZE * (m + 1) from by ring]

/-- Generic round trip: when the translator realizes an injective
address map avoiding the index sectors it reads, writing a buffer
over the whole file and reading the whole file back returns exactly
the written bytes. -/
theorem roundtrip_general (ino : inode) (d0 : Disk) (IS : List Nat) (A : Nat → Nat)
    (n : Nat)
    (hA : ∀ i, i < n → ∀ d', agreeOn IS d' d0 →
      byte_to_sector ino d' (BLOCK_SECTOR_SIZE * i) = A i)
    (hAIS : ∀ i, i < n → A i ∉ IS)
    (hinj : ∀ i j, i < n → j < n → A i = A j → i = j)
    (hlen : ino.data.length = BLOCK_SECTOR_SIZE * n)
    (hdeny : ino.deny_write_cnt = 0)
    (buf : Nat → Nat) :
    (inode_write_at ino d0 (BLOCK_SECTOR_SIZE * n) 0 buf).1 = BLOCK_SECTOR_SIZE * n ∧
    inode_read_at ino (inode_write_at ino d0 (BLOCK_SECTOR_SIZE * n) 0 buf).2
        (BLOCK_SECTOR_SIZE * n) 0 =
      (BLOCK_SECTOR_SIZE * n, (List.range (BLOCK_SECTOR_SIZE * n)).map buf) := by
  have hwr : inode_write_at ino d0 (BLOCK_SECTOR_SIZE * n) 0 buf =
      writeLoop (BLOCK_SECTOR_SIZE * n) ino d0 (BLOCK_SECTOR_SIZE * n) 0 buf 0 := by
    unfold inode_write_at
    rw [if_neg (by simp [hdeny])]
  rw [hwr]
  obtain ⟨w1, w2, w3, w4⟩ := writeLoop_full ino d0 IS A n buf hA hAIS hlen n 0
    (BLOCK_SECTOR_SIZE * n) 0 d0 (by omega) (by simp only [BLOCK_SECTOR_SIZE]; omega)
    (fun s _ => rfl)
  simp only [Nat.mul_zero, Nat.zero_add] at w1 w2 w3 w4
  set dW := (writeLoop (BLOCK_SECTOR_SIZE * n) ino d0 (BLOCK_SECTOR_SIZE * n) 0 buf 0).2
    with hdWdef
  have hcontent : ∀ t, t < n →
      dW (A t) = SectorData.raw fun c => buf (BLOCK_SECTOR_SIZE * t + c) := by
    intro t ht
    have h4 := w4 t ht (fun u hu1 hu2 heq => absurd (hinj u t hu2 ht heq) (by omega))
    simp only [Nat.zero_add] at h4
    exact h4
  have hA' : ∀ i, i < n → byte_to_sector ino dW (BLOCK_SECTOR_SIZE * i) = A i :=
    fun i hi => hA i hi dW w2
  have hR := readLoop_full ino dW A n hA' hlen n 0 (BLOCK_SECTOR_SIZE * n) (by omega)
    (by simp only [BLOCK_SECTOR_SIZE]; omega)
  simp only [Nat.mul_zero] at hR
  have hchunks : chunkList (fun t => (List.range BLOCK_SECTOR_SIZE).map (readRaw dW (A t))) 0 n =
      chunkList (fun t => (List.range BLOCK_SECTOR_SIZE).map fun c =>
        buf (BLOCK_SECTOR_SIZE * t + c)) 0 n := by
    apply chunkList_congr
    intro t ht1 ht2
    have hrr : readRaw dW (A t) = fun c => buf (BLOCK_SECTOR_SIZE * t + c) := by
      unfold readRaw
      rw [hcontent t (by omega)]
    rw [hrr]
  refine ⟨w1, ?_⟩
  unfold inode_read_at
  rw [hR, hchunks, chunkList_pattern buf n 0]
  rw [Nat.mul_zero, ← List.range_eq_range']

/-- Creation of an n-sector file at sector 1 with the sample
allocator on a blank disk. -/
def crCase (n : Nat) : Bool × FMap × Disk := inode_create 1 (512 * n) fmSample dEmpty

/-- The disk after that creation. -/
def dCase (n : Nat) : Disk := (crCase n).2.2

/-- The open inode obtained by opening sector 1 after that creation. -/
def inoCase (n : Nat) : inode := (inode_open 1 [] (dCase n)).1

/-- Data-sector addresses of a direct-only n-sector sample file. -/
def alDirect (n : Nat) : List Nat := (List.range n).map fun k => 1000 + k

/-- Data-sector addresses of the 125-sector sample file: 124 direct
sectors and the one sector the under-budgeted planner never
allocated, which resolves to 0. -/
def al125 : List Nat := alDirect 124 ++ [0]

/-- Data-sector addresses of the (124+128)-sector sample file. -/
def al252 : List Nat := alDirect 124 ++ ((List.range 128).map fun k => 1126 + k)

/-- The address map of a file within the direct range is realized by
the direct slots, whatever the disk holds. -/
theorem hA_direct_case (ino : inode) (n : Nat) (AL : List Nat) (hn : n ≤ 124)
    (hlen2 : ino.data.length = BLOCK_SECTOR_SIZE * n)
    (hslots : ∀ i, i < n → ino.data.sectors i = AL.getD i 0) :
    ∀ i, i < n → ∀ d' : Disk, byte_to_sector ino d' (BLOCK_SECTOR_SIZE * i) = AL.getD i 0 := by
  intro i hi d'
  have hdiv : BLOCK_SECTOR_SIZE * i / BLOCK_SECTOR_SIZE = i :=
    Nat.mul_div_cancel_left i (by norm_num [BLOCK_SECTOR_SIZE])
  have h1 : BLOCK_SECTOR_SIZE * i < ino.data.length := by
    rw [hlen2]
    simp only [BLOCK_SECTOR_SIZE]
    omega
  have h2 : BLOCK_SECTOR_SIZE * i / BLOCK_SECTOR_SIZE < DIRECT_BLOCK := by
    rw [hdiv]
    simp only [DIRECT_BLOCK]
    omega
  rw [bts_direct ino d' _ h1 h2, hdiv]
  exact hslots i hi

/-- The address map of a file of at most 124 + 128 sectors whose
index tree is the pair 1124 (first level) and 1125 (second level) is
realized on every disk agreeing with the creation disk on those two
index sectors. -/
theorem hA_indirect_case (ino : inode) (d0 : Disk) (n : Nat) (AL : List Nat)
    (hn1 : 124 < n) (hn2 : n ≤ 252)
    (hlen2 : ino.data.length = BLOCK_SECTOR_SIZE * n)
    (hib : ino.data.ib = 1124)
    (hslots : ∀ i, i < 124 → ino.data.sectors i = AL.getD i 0)
    (hsec : readIB d0 1124 0 = 1125)
    (hind : ∀ i, i < n → 124 ≤ i → readIB d0 1125 ((i - 124) % 128) = AL.getD i 0) :
    ∀ i, i < n → ∀ d', agreeOn [1124, 1125] d' d0 →
      byte_to_sector ino d' (BLOCK_SECTOR_SIZE * i) = AL.getD i 0 := by
  intro i hi d' hag
  have hdiv : BLOCK_SECTOR_SIZE * i / BLOCK_SECTOR_SIZE = i :=
    Nat.mul_div_cancel_left i (by norm_num [BLOCK_SECTOR_SIZE])
  have h1 : BLOCK_SECTOR_SIZE * i < ino.data.length := by
    rw [hlen2]
    simp only [BLOCK_SECTOR_SIZE]
    omega
  by_cases hd : i < 124
  · have h2 : BLOCK_SECTOR_SIZE * i / BLOCK_SECTOR_SIZE < DIRECT_BLOCK := by
      rw [hdiv]
      simp only [DIRECT_BLOCK]
      omega
    rw [bts_direct ino d' _ h1 h2, hdiv]
    exact hslots i hd
  · have h2 : DIRECT_BLOCK ≤ BLOCK_SECTOR_SIZE * i / BLOCK_SECTOR_SIZE := by
      rw [hdiv]
      simp only [DIRECT_BLOCK]
      omega
    rw [bts_indirect ino d' _ h1 h2, hdiv, hib]
    have e1 : d' 1124 = d0 1124 := hag 1124 (by simp)
    have e2 : d' 1125 = d0 1125 := hag 1125 (by simp)
    rw [readIB_congr e1]
    have hfi : (i - DIRECT_BLOCK) / 128 = 0 := by
      simp only [DIRECT_BLOCK]
      omega
    rw [hfi, hsec, readIB_congr e2]
    have hsi : (i - DIRECT_BLOCK) % 128 = (i - 124) % 128 := by
      simp only [DIRECT_BLOCK]
    rw [hsi]
    exact hind i hi (by omega)

/-- Round trip over the (124+128)-sector sample file. -/
theorem roundtrip_case252 (buf : Nat → Nat) :
    (inode_write_at (inoCase 252) (dCase 252) (BLOCK_SECTOR_SIZE * 252) 0 buf).1 =
      BLOCK_SECTOR_SIZE * 252 ∧
    inode_read_at (inoCase 252)
        (inode_write_at (inoCase 252) (dCase 252) (BLOCK_SECTOR_SIZE * 252) 0 buf).2
        (BLOCK_SECTOR_SIZE * 252) 0 =
      (BLOCK_SECTOR_SIZE * 252, (List.range (BLOCK_SECTOR_SIZE * 252)).map buf) := by
  have hL : al252.length = 252 := by decide
  have hN : al252.Nodup := by decide
  refine roundtrip_general (inoCase 252) (dCase 252) [1124, 1125]
    (fun i => al252.getD i 0) 252 ?_ ?_ ?_ ?_ ?_ buf
  · exact hA_indirect_case (inoCase 252) (dCase 252) 252 al252 (by norm_num) (by norm_num)
      (by decide) (by decide) (by decide) (by decide) (by decide)
  · decide
  · intro i j hi hj h
    exact nodup_getD_inj al252 hN i j (by omega) (by omega) h
  · decide
  · decide

/-- Round trip over the 125-sector sample file, which crosses the
direct boundary into the first second-level index sector. -/
theorem roundtrip_case125 (buf : Nat → Nat) :
    (inode_write_at (inoCase 125) (dCase 125) (BLOCK_SECTOR_SIZE * 125) 0 buf).1 =
      BLOCK_SECTOR_SIZE * 125 ∧
    inode_read_at (inoCase 125)
        (inode_write_at (inoCase 125) (dCase 125) (BLOCK_SECTOR_SIZE * 125) 0 buf).2
        (BLOCK_SECTOR_SIZE * 125) 0 =
      (BLOCK_SECTOR_SIZE * 125, (List.range (BLOCK_SECTOR_SIZE * 125)).map buf) := by
  have hL : al125.length = 125 := by decide
  have hN : al125.Nodup := by decide
  refine roundtrip_general (inoCase 125) (dCase 125) [1124, 1125]
    (fun i => al125.getD i 0) 125 ?_ ?_ ?_ ?_ ?_ buf
  · exact hA_indirect_case (inoCase 125) (dCase 125) 125 al125 (by norm_num) (by norm_num)
      (by decide) (by decide) (by decide) (by decide) (by decide)
  · decide
  · intro i j hi hj h
    exact nodup_getD_inj al125 hN i j (by omega) (by omega) h
  · decide
  · decide

/-- Round trip over the 124-sector sample file, which fills the
direct slots exactly. -/
theorem roundtrip_case124 (buf : Nat → Nat) :
    (inode_write_at (inoCase 124) (dCase 124) (BLOCK_SECTOR_SIZE * 124) 0 buf).1 =
      BLOCK_SECTOR_SIZE * 124 ∧
    inode_read_at (inoCase 124)
        (inode_write_at (inoCase 124) (dCase 124) (BLOCK_SECTOR_SIZE * 124) 0 buf).2
        (BLOCK_SECTOR_SIZE * 124) 0 =
      (BLOCK_SECTOR_SIZE * 124, (List.range (BLOCK_SECTOR_SIZE * 124)).map buf) := by
  have hL : (alDirect 124).length = 124 := by decide
  have hN : (alDirect 124).Nodup := by decide
  refine roundtrip_general (inoCase 124) (dCase 124) []
    (fun i => (alDirect 124).getD i 0) 124 ?_ ?_ ?_ ?_ ?_ buf
  · intro i hi d' hag
    exact hA_direct_case (inoCase 124) 124 (alDirect 124) (by norm_num) (by decide)
      (by decide) i hi d'
  · intro i hi
    simp
  · intro i j hi hj h
    exact nodup_getD_inj (alDirect 124) hN i j (by omega) (by omega) h
  · decide
  · decide

/-- Round trip over the one-sector sample file. -/
theorem roundtrip_case1 (buf : Nat → Nat) :
    (inode_write_at (inoCase 1) (dCase 1) (BLOCK_SECTOR_SIZE * 1) 0 buf).1 =
      BLOCK_SECTOR_SIZE * 1 ∧
    inode_read_at (inoCase 1)
        (inode_write_at (inoCase 1) (dCase 1) (BLOCK_SECTOR_SIZE * 1) 0 buf).2
        (BLOCK_SECTOR_SIZE * 1) 0 =
      (BLOCK_SECTOR_SIZE * 1, (List.range (BLOCK_SECTOR_SIZE * 1)).map buf) := by
  have hL : (alDirect 1).length = 1 := by decide
  have hN : (alDirect 1).Nodup := by decide
  refine roundtrip_general (inoCase 1) (dCase 1) []
    (fun i => (alDirect 1).getD i 0) 1 ?_ ?_ ?_ ?_ ?_ buf
  · intro i hi d' hag
    exact hA_direct_case (inoCase 1) 1 (alDirect 1) (by norm_num) (by decide)
      (by decide) i hi d'
  · intro i hi
    simp
  · intro i j hi hj h
    exact nodup_getD_inj (alDirect 1) hN i j (by omega) (by omega) h
  · decide
  · decide

/-- Claim C5: for each listed length — 1 sector (direct-only), exactly
124 sectors, 125 sectors (first crossing into the index tree), and
124 + 128 sectors (crossing a second-level boundary) — creation
succeeds, and writing an arbitrary byte pattern over the whole file
then reading the whole file back returns exactly the written bytes. -/
theorem claim_C5 :
    ((crCase 1).1 = true ∧ ∀ buf : Nat → Nat,
      inode_read_at (inoCase 1)
          (inode_write_at (inoCase 1) (dCase 1) (BLOCK_SECTOR_SIZE * 1) 0 buf).2
          (BLOCK_SECTOR_SIZE * 1) 0 =
        (BLOCK_SECTOR_SIZE * 1, (List.range (BLOCK_SECTOR_SIZE * 1)).map buf)) ∧
    ((crCase 124).1 = true ∧ ∀ buf : Nat → Nat,
      inode_read_at (inoCase 124)
          (inode_write_at (inoCase 124) (dCase 124) (BLOCK_SECTOR_SIZE * 124) 0 buf).2
          (BLOCK_SECTOR_SIZE * 124) 0 =
        (BLOCK_SECTOR_SIZE * 124, (List.range (BLOCK_SECTOR_SIZE * 124)).map buf)) ∧
    ((crCase 125).1 = true ∧ ∀ buf : Nat → Nat,
      inode_read_at (inoCase 125)
          (inode_write_at (inoCase 125) (dCase 125) (BLOCK_SECTOR_SIZE * 125) 0 buf).2
          (BLOCK_SECTOR_SIZE * 125) 0 =
        (BLOCK_SECTOR_SIZE * 125, (List.range (BLOCK_SECTOR_SIZE * 125)).map buf)) ∧
    ((crCase 252).1 = true ∧ ∀ buf : Nat → Nat,
      inode_read_at (inoCase 252)
          (inode_write_at (inoCase 252) (dCase 252) (BLOCK_SECTOR_SIZE * 252) 0 buf).2
          (BLOCK_SECTOR_SIZE * 252) 0 =
        (BLOCK_SECTOR_SIZE * 252, (List.range (BLOCK_SECTOR_SIZE * 252)).map buf)) :=
  ⟨⟨by decide, fun buf => (roundtrip_case1 buf).2⟩,
   ⟨by decide, fun buf => (roundtrip_case124 buf).2⟩,
   ⟨by decide, fun buf => (roundtrip_case125 buf).2⟩,
   ⟨by decide, fun buf => (roundtrip_case252 buf).2⟩⟩

end Inode
